import Mathlib

/-!
Verification of the Insider Trading Tracker backend (Express server and
Vercel serverless copies): the in-memory TTL cache, the per-symbol payload
transform (filter, defaulting map, first-occurrence dedup, sort), the
concurrent fan-out aggregator with per-symbol error absorption, and the
error taxonomy of `handleFinnhubError`.

The JavaScript source is embedded shallowly: optional JS object fields are
`Option`s; JS truthiness tests are the `strTruthy`/`intTruthy` predicates;
numbers that the program only compares, negates and defaults are `Int`
(the NaN cases collapse into the falsy branch they share in JS); `Date.now()`
becomes an explicit `now : Nat` parameter; a promise that either resolves or
rejects becomes an `Except`; `Promise.all` is a fold that fails on the first
rejected element; `Array.prototype.sort` with the filing-date comparator is
a structural stable insertion sort (ES2019 fixes `Array.prototype.sort` as
stable, which determines the output list for a consistent comparator); and
`new Date(s).getTime()` on a `YYYY-MM-DD` string is `dateVal`, whose order
agrees with the timestamp order on such strings.
-/

namespace Insider

/-- JS truthiness of an optional string field: `undefined`, `null` and the
empty string are falsy. -/
def strTruthy : Option String → Bool
  | none => false
  | some s => s ≠ ""

/-- JS truthiness of an optional numeric field: `undefined` and `0` are falsy
(`NaN`, also falsy, has no `Int` counterpart and is collapsed into `none`). -/
def intTruthy : Option Int → Bool
  | none => false
  | some n => n ≠ 0

/-- JS `a || b` on optional string values. -/
def jsOrStr (a b : Option String) : Option String :=
  if strTruthy a then a else b

/-- JS `a || d` for an optional string against a string literal default. -/
def jsOrStrD (a : Option String) (d : String) : String :=
  if strTruthy a then a.getD "" else d

/-- JS `a || d` for an optional number against a numeric default. -/
def jsOrIntD (a : Option Int) (d : Int) : Int :=
  if intTruthy a then a.getD 0 else d

/-- JS `Math.abs(a) || 0`: `Math.abs(undefined)` is `NaN`, which `|| 0`
turns into `0`; on a number it is the absolute value (`|0| = 0` already,
so the `|| 0` changes nothing there). -/
def jsAbsD : Option Int → Int
  | none => 0
  | some n => |n|

/-- A raw entry of the Finnhub `data` array (src/unnamed/part_000 line 71 of
the spec's interface section; fields as read by `transformFinnhubData`).
Every field may be absent. -/
structure RawTransaction where
  symbol : Option String
  name : Option String
  share : Option Int
  change : Option Int
  filingDate : Option String
  transactionDate : Option String
  transactionPrice : Option Int
  transactionCode : Option String
deriving DecidableEq, Repr

/-- One row of transformed output (src/unnamed/part_000 lines 224-233). -/
structure TransactionRecord where
  symbol : String
  personName : String
  share : Int
  change : Int
  filingDate : String
  transactionDate : Option String
  transactionPrice : Int
  transactionCode : String
deriving DecidableEq, Repr

/-- The filter of `transformFinnhubData` (src/unnamed/part_000 lines 216-223):
`transaction.symbol && transaction.share && transaction.share !== 0 &&
(transaction.filingDate || transaction.transactionDate)`. -/
def keeps (t : RawTransaction) : Bool :=
  strTruthy t.symbol && intTruthy t.share && (t.share ≠ some 0) &&
    (strTruthy t.filingDate || strTruthy t.transactionDate)

/-- The map of `transformFinnhubData` (src/unnamed/part_000 lines 224-233).
`symbol` is total via `getD ""`: the filter only lets truthy symbols
through, so the default is never the value of a retained record. -/
def toRecord (t : RawTransaction) : TransactionRecord where
  symbol := t.symbol.getD ""
  personName := jsOrStrD t.name "Unknown"
  share := jsAbsD t.share
  change := jsOrIntD t.change 0
  filingDate := (jsOrStr t.filingDate t.transactionDate).getD ""
  transactionDate := t.transactionDate
  transactionPrice := jsOrIntD t.transactionPrice 0
  transactionCode := jsOrStrD t.transactionCode "N/A"

/-- The duplicate test of `transformFinnhubData` (src/unnamed/part_000
lines 236-241): equality on (symbol, filingDate, personName, share). -/
def sameKey (a b : TransactionRecord) : Bool :=
  a.symbol == b.symbol && a.filingDate == b.filingDate &&
    a.personName == b.personName && a.share == b.share

/-- The dedup of `transformFinnhubData` (src/unnamed/part_000 lines 235-242):
`filter((transaction, index, self) => index === self.findIndex(t => ...))`,
keeping an element exactly when its index is the first index whose element
shares its key. -/
def uniqueTransactions (l : List TransactionRecord) : List TransactionRecord :=
  (l.enum.filter (fun p => l.findIdx (fun t => sameKey t p.2) == p.1)).map Prod.snd

/-- Numeric value of a `YYYY-MM-DD` date string: the shallow embedding of
`new Date(s).getTime()` as the sort comparators use it; on the zero-padded
date strings the pipeline carries, the order agrees. -/
def dateVal (s : String) : Nat :=
  (s.data.filter (fun c => c.isDigit)).foldl (fun n c => n * 10 + (c.toNat - 48)) 0

/-- The comparator `(a, b) => new Date(b.filingDate) - new Date(a.filingDate)`
read as a `≤`-test: `a` may precede `b` when `b`'s date is not above `a`'s. -/
def filingLe (a b : TransactionRecord) : Bool :=
  decide (dateVal b.filingDate ≤ dateVal a.filingDate)

/-- Stable insertion into a list held in descending filing-date order:
`r`, earlier in input order than everything in the list, goes in front of
the first element it need not follow. -/
def insertByDate (r : TransactionRecord) : List TransactionRecord → List TransactionRecord
  | [] => [r]
  | x :: xs => if filingLe r x then r :: x :: xs else x :: insertByDate r xs

/-- `.sort((a, b) => dateB - dateA)` (src/unnamed/part_000 lines 244-248 and
358-362): the stable sort ES2019 fixes for `Array.prototype.sort`, most
recent filing date first, input order kept between equal dates. -/
def sortByFilingDateDesc : List TransactionRecord → List TransactionRecord
  | [] => []
  | x :: xs => insertByDate x (sortByFilingDateDesc xs)

/-- The filter-and-map stage of `transformFinnhubData`: the `transformed`
array of src/unnamed/part_000 lines 215-233. `none` stands for a payload
that is missing, has no `data`, or whose `data` is not an array (line 211). -/
def transformedOf (finnhubData : Option (List RawTransaction)) : List TransactionRecord :=
  match finnhubData with
  | none => []
  | some data => (data.filter keeps).map toRecord

/-- `transformFinnhubData` (src/unnamed/part_000 lines 210-251): guard, filter,
map, first-occurrence dedup, then sort descending by filing date. -/
def transformFinnhubData (finnhubData : Option (List RawTransaction)) : List TransactionRecord :=
  sortByFilingDateDesc (uniqueTransactions (transformedOf finnhubData))

/-- An axios failure as `handleFinnhubError` inspects it
(src/unnamed/part_000 lines 253-301): `error.response` carries a status and
possibly a body `error` field; otherwise `error.request` may be present. -/
structure AxiosError where
  responseStatus : Option Nat
  responseErrorField : Option String
  hasRequest : Bool
  message : String
deriving DecidableEq, Repr

/-- A structured error payload `{success: false, error, details?, statusCode}`. -/
structure ApiError where
  error : String
  details : Option String
  statusCode : Nat
deriving DecidableEq, Repr

/-- `handleFinnhubError` (src/unnamed/part_000 lines 253-301). -/
def handleFinnhubError (e : AxiosError) : ApiError :=
  match e.responseStatus with
  | some status =>
    let message := e.responseErrorField.getD e.message
    if status == 401 then
      { error := "Invalid API key configuration", details := none, statusCode := 500 }
    else if status == 429 then
      { error := "API rate limit exceeded. Please try again later.",
        details := some "Finnhub API rate limit reached", statusCode := 429 }
    else if status == 404 then
      { error := "Resource not found", details := none, statusCode := 404 }
    else
      { error := "Failed to fetch data from Finnhub API",
        details := some ("API returned " ++ toString status ++ ": " ++ message),
        statusCode := 502 }
  | none =>
    if e.hasRequest then
      { error := "Service temporarily unavailable. Please try again.",
        details := some "No response from Finnhub API", statusCode := 503 }
    else
      { error := "Internal server error", details := some e.message, statusCode := 500 }

/-- The settled outcome of one upstream insider-transactions request: the
parsed body on fulfilment, the `AxiosError` on rejection (timeout, network
error or non-2xx status). -/
abbrev FetchResult := Except AxiosError (Option (List RawTransaction))

instance {ε α : Type} [DecidableEq ε] [DecidableEq α] : DecidableEq (Except ε α)
  | .ok a, .ok b =>
    if h : a = b then .isTrue (by rw [h])
    else .isFalse (by intro hc; cases hc; exact h rfl)
  | .ok _, .error _ => .isFalse (by intro hc; cases hc)
  | .error _, .ok _ => .isFalse (by intro hc; cases hc)
  | .error e, .error f =>
    if h : e = f then .isTrue (by rw [h])
    else .isFalse (by intro hc; cases hc; exact h rfl)

/-- The hard-coded tracked-symbol list (src/unnamed/part_000 lines 32-38). -/
def MAJOR_SYMBOLS : List String :=
  ["AAPL", "MSFT", "GOOGL", "AMZN", "NVDA", "META", "TSLA", "BRK.B", "V", "UNH",
   "XOM", "JNJ", "WMT", "JPM", "LLY", "PG", "MA", "HD", "CVX", "ABBV",
   "MRK", "AVGO", "KO", "COST", "PEP", "ADBE", "TMO", "MCD", "CSCO", "ACN",
   "NKE", "ABT", "CRM", "DHR", "NFLX", "VZ", "WFC", "TXN", "ORCL", "INTC",
   "BMY", "PM", "UPS", "NEE", "RTX", "LOW", "MS", "HON", "QCOM", "BA"]

/-- One per-symbol promise of `fetchAllTransactions` (src/unnamed/part_000
lines 319-345): `axios.get(...).then(r => transformFinnhubData(r.data))
.catch(e => [])`. The environment `env` is the upstream: each symbol's
settled outcome for the queried date range. -/
def symbolFetch (env : String → FetchResult) (symbol : String) :
    Except AxiosError (List TransactionRecord) :=
  match env symbol with
  | .ok body => .ok (transformFinnhubData body)
  | .error _ => .ok []

/-- `Promise.all`: fulfils with every value once all fulfil, rejects with the
first rejection. -/
def promiseAll {ε α : Type} : List (Except ε α) → Except ε (List α)
  | [] => .ok []
  | p :: ps =>
    match p with
    | .error e => .error e
    | .ok a =>
      match promiseAll ps with
      | .error e => .error e
      | .ok as => .ok (a :: as)

/-- The combination step of `fetchAllTransactions` (src/unnamed/part_000
lines 352-362): `results.flat()` then sort by filing date, most recent
first. -/
def combineResults (results : List (List TransactionRecord)) : List TransactionRecord :=
  sortByFilingDateDesc results.flatten

/-- `fetchAllTransactions` (src/unnamed/part_000 lines 313-365): fan out one
request per tracked symbol, settle them all, flatten and sort. -/
def fetchAllTransactions (env : String → FetchResult) :
    Except AxiosError (List TransactionRecord) :=
  match promiseAll (MAJOR_SYMBOLS.map (symbolFetch env)) with
  | .error e => .error e
  | .ok results => .ok (combineResults results)

/-- What the route replies with. -/
inductive RouteReply where
  | ok (data : List TransactionRecord)
  | err (e : ApiError)
deriving DecidableEq, Repr

/-- The `try`/`catch` core of `GET /api/insider-trades`
(src/unnamed/part_000 lines 427-525) after validation passes and the cache
misses: reply with the aggregate's data, routing a thrown error through
`handleFinnhubError`. -/
def insiderTradesRoute (env : String → FetchResult) : RouteReply :=
  match fetchAllTransactions env with
  | .ok l => .ok l
  | .error e => .err (handleFinnhubError e)

/-- The serverless copy (src/unnamed/part_003 lines 134-221): a missing API
key is answered with a 500 configuration error before any fetch; a thrown
error becomes a generic 500. -/
def vercelInsiderTrades (apiKeyConfigured : Bool) (env : String → FetchResult) : RouteReply :=
  if !apiKeyConfigured then
    .err { error := "Server configuration error. API key not found.",
           details := none, statusCode := 500 }
  else
    match fetchAllTransactions env with
    | .ok l => .ok l
    | .error e => .err { error := "Internal server error",
                         details := some e.message, statusCode := 500 }

/-- `ENABLE_CACHING` and `CACHE_TTL` (src/unnamed/part_000 lines 28-29),
times in milliseconds. -/
structure CacheConfig where
  enableCaching : Bool
  cacheTTL : Nat
deriving DecidableEq, Repr

/-- One stored cache value: `{data, timestamp}` (src/unnamed/part_000
lines 81-84). -/
structure CacheEntry (α : Type) where
  data : α
  timestamp : Nat
deriving DecidableEq, Repr

/-- The `Map` behind the cache, as the association of keys to entries;
lookup takes the first binding of a key. -/
abbrev CacheMap (α : Type) := List (String × CacheEntry α)

/-- `cache.get(key)`. -/
def mapGet {α : Type} (c : CacheMap α) (k : String) : Option (CacheEntry α) :=
  (c.find? (fun p => p.1 == k)).map Prod.snd

/-- `cache.set(key, e)`: bind `k`, dropping any prior binding. -/
def mapSet {α : Type} (c : CacheMap α) (k : String) (e : CacheEntry α) : CacheMap α :=
  (k, e) :: c.filter (fun p => p.1 != k)

/-- `cache.delete(key)`. -/
def mapDelete {α : Type} (c : CacheMap α) (k : String) : CacheMap α :=
  c.filter (fun p => p.1 != k)

/-- `getCache` (src/unnamed/part_000 lines 63-76): `Date.now()` is the
explicit `now`; the value read, if any, comes with the cache map the call
leaves behind (the expired entry is deleted on that read). JS
`now - cached.timestamp > CACHE_TTL` is the `Nat` test
`cfg.cacheTTL < now - cached.timestamp`: a timestamp not in the past keeps
the truncated difference at `0`, not expired, exactly as in JS. -/
def getCache {α : Type} (cfg : CacheConfig) (cache : CacheMap α) (now : Nat)
    (key : String) : Option α × CacheMap α :=
  if !cfg.enableCaching then (none, cache)
  else
    match mapGet cache key with
    | none => (none, cache)
    | some cached =>
      if cfg.cacheTTL < now - cached.timestamp then (none, mapDelete cache key)
      else (some cached.data, cache)

/-- `setCache` (src/unnamed/part_000 lines 78-85). -/
def setCache {α : Type} (cfg : CacheConfig) (cache : CacheMap α) (now : Nat)
    (key : String) (data : α) : CacheMap α :=
  if !cfg.enableCaching then cache else mapSet cache key ⟨data, now⟩

/-- What one settled per-symbol promise contributes to the merged list:
its transformed payload on success, nothing on failure. -/
def symbolResult (env : String → FetchResult) (symbol : String) : List TransactionRecord :=
  match env symbol with
  | .ok body => transformFinnhubData body
  | .error _ => []

/-! ## Concrete inputs used by examples, witnesses and counterexamples -/

/-- A raw AAPL sale filed 2025-01-01. -/
def eAAPL : RawTransaction :=
  { symbol := some "AAPL", name := some "Alice A", share := some 100,
    change := some (-100), filingDate := some "2025-01-01",
    transactionDate := some "2024-12-30", transactionPrice := some 10,
    transactionCode := some "S" }

/-- A raw MSFT entry filed 2025-01-05 with every optional field absent. -/
def eMSFT : RawTransaction :=
  { symbol := some "MSFT", name := none, share := some (-50), change := none,
    filingDate := some "2025-01-05", transactionDate := none,
    transactionPrice := none, transactionCode := none }

/-- Two raw entries agreeing on (symbol, filingDate, name, share) while
differing in transactionPrice. -/
def dupA : RawTransaction :=
  { symbol := some "AAPL", name := some "Bob B", share := some 5,
    change := none, filingDate := some "2025-01-02", transactionDate := none,
    transactionPrice := some 10, transactionCode := some "P" }

def dupB : RawTransaction :=
  { symbol := some "AAPL", name := some "Bob B", share := some 5,
    change := none, filingDate := some "2025-01-02", transactionDate := none,
    transactionPrice := some 20, transactionCode := some "P" }

/-- A request that timed out: no response, a request object present. -/
def errTimeout : AxiosError :=
  { responseStatus := none, responseErrorField := none, hasRequest := true,
    message := "timeout of 10000ms exceeded" }

/-- An upstream 401: the invalid-API-token response. -/
def err401 : AxiosError :=
  { responseStatus := some 401, responseErrorField := some "Invalid API key",
    hasRequest := true, message := "Request failed with status code 401" }

/-- An upstream where AAPL and MSFT answer with one entry each and every
other symbol request fails. -/
def envEx : String → FetchResult := fun s =>
  if s == "AAPL" then .ok (some [eAAPL])
  else if s == "MSFT" then .ok (some [eMSFT])
  else .error errTimeout

/-- An upstream where the MSFT query answers with an AAPL entry, as nothing
in the pipeline prevents: the same record then reaches the merge twice. -/
def envDup : String → FetchResult := fun s =>
  if s == "AAPL" then .ok (some [eAAPL])
  else if s == "MSFT" then .ok (some [eAAPL])
  else .error errTimeout

/-! ## Helper lemmas -/

theorem sameKey_refl (a : TransactionRecord) : sameKey a a = true := by
  simp [sameKey]

theorem sameKey_true_iff (a b : TransactionRecord) :
    sameKey a b = true ↔
      a.symbol = b.symbol ∧ a.filingDate = b.filingDate ∧
        a.personName = b.personName ∧ a.share = b.share := by
  simp [sameKey, and_assoc]

theorem sameKey_comm (a b : TransactionRecord) : sameKey a b = sameKey b a := by
  by_cases h : sameKey a b = true
  · have h' := (sameKey_true_iff a b).mp h
    rw [h, Eq.comm]
    exact (sameKey_true_iff b a).mpr ⟨h'.1.symm, h'.2.1.symm, h'.2.2.1.symm, h'.2.2.2.symm⟩
  · rw [Bool.not_eq_true] at h
    rw [h, Eq.comm, Bool.eq_false_iff]
    intro hba
    have h' := (sameKey_true_iff b a).mp hba
    exact absurd ((sameKey_true_iff a b).mpr
      ⟨h'.1.symm, h'.2.1.symm, h'.2.2.1.symm, h'.2.2.2.symm⟩) (by simp [h])

theorem find?_eq_getElem?_findIdx {α : Type} (p : α → Bool) (l : List α) :
    l.find? p = l[l.findIdx p]? := by
  induction l with
  | nil => rfl
  | cons a t ih =>
    by_cases h : p a = true
    · simp [List.find?_cons, List.findIdx_cons, h]
    · rw [Bool.not_eq_true] at h
      simp [List.find?_cons, List.findIdx_cons, h, ih]

theorem findIdx_le_of_getElem? {α : Type} {p : α → Bool} :
    ∀ {l : List α} {i : Nat} {x : α}, l[i]? = some x → p x = true → l.findIdx p ≤ i := by
  intro l
  induction l with
  | nil => intro i x h; simp at h
  | cons a t ih =>
    intro i x h hp
    cases i with
    | zero =>
      rw [List.getElem?_cons_zero, Option.some_inj] at h
      subst h
      simp [List.findIdx_cons, hp]
    | succ j =>
      rw [List.getElem?_cons_succ] at h
      by_cases ha : p a = true
      · simp [List.findIdx_cons, ha]
      · rw [Bool.not_eq_true] at ha
        simp only [List.findIdx_cons, ha, cond_false]
        exact Nat.succ_le_succ (ih h hp)

theorem pairwise_fst_lt_enumFrom {α : Type} :
    ∀ (n : Nat) (l : List α),
      (List.enumFrom n l).Pairwise (fun p q => p.1 < q.1) := by
  intro n l
  induction l generalizing n with
  | nil => exact List.Pairwise.nil
  | cons a t ih =>
    rw [List.enumFrom_cons]
    refine List.Pairwise.cons ?_ (ih (n + 1))
    intro q hq
    have hq' : (q.1, q.2) ∈ List.enumFrom (n + 1) t := by simpa using hq
    have := List.mem_enumFrom hq'
    omega

theorem pairwise_fst_lt_enum {α : Type} (l : List α) :
    l.enum.Pairwise (fun p q => p.1 < q.1) :=
  pairwise_fst_lt_enumFrom 0 l

/-- Membership in the deduplicated list: exactly the records that are the
first of their (symbol, filingDate, personName, share) class. -/
theorem mem_uniqueTransactions_iff (l : List TransactionRecord) (r : TransactionRecord) :
    r ∈ uniqueTransactions l ↔ l.find? (fun t => sameKey t r) = some r := by
  unfold uniqueTransactions
  rw [List.mem_map]
  constructor
  · rintro ⟨p, hp, rfl⟩
    rw [List.mem_filter] at hp
    obtain ⟨hmem, hcond⟩ := hp
    rw [List.mem_enum_iff_getElem?] at hmem
    rw [beq_iff_eq] at hcond
    rw [find?_eq_getElem?_findIdx, hcond, hmem]
  · intro h
    refine ⟨(l.findIdx (fun t => sameKey t r), r), ?_, rfl⟩
    rw [List.mem_filter, List.mem_enum_iff_getElem?]
    rw [find?_eq_getElem?_findIdx] at h
    exact ⟨h, by simp⟩

/-- The deduplicated list holds no two records of one class. -/
theorem pairwise_uniqueTransactions (l : List TransactionRecord) :
    (uniqueTransactions l).Pairwise (fun a b => sameKey a b = false) := by
  unfold uniqueTransactions
  rw [List.pairwise_map]
  have base := (pairwise_fst_lt_enum l).filter
    (fun p => l.findIdx (fun t => sameKey t p.2) == p.1)
  refine base.imp_of_mem ?_
  intro p q hp hq hlt
  rw [List.mem_filter, List.mem_enum_iff_getElem?] at hp hq
  obtain ⟨hpm, _⟩ := hp
  obtain ⟨_, hqc⟩ := hq
  rw [beq_iff_eq] at hqc
  rw [Bool.eq_false_iff]
  intro hkey
  have hle := @findIdx_le_of_getElem? TransactionRecord (fun t => sameKey t q.2) l p.1 p.2 hpm hkey
  omega

theorem filingLe_trans (a b c : TransactionRecord) :
    filingLe a b = true → filingLe b c = true → filingLe a c = true := by
  simp only [filingLe, decide_eq_true_eq]
  omega

theorem filingLe_of_not (a b : TransactionRecord) (h : ¬ filingLe a b = true) :
    filingLe b a = true := by
  simp only [filingLe, decide_eq_true_eq] at h ⊢
  omega

theorem insertByDate_perm (r : TransactionRecord) (l : List TransactionRecord) :
    (insertByDate r l).Perm (r :: l) := by
  induction l with
  | nil => exact List.Perm.refl _
  | cons x xs ih =>
    unfold insertByDate
    by_cases h : filingLe r x = true
    · rw [if_pos h]
    · rw [if_neg h]
      exact (ih.cons x).trans (List.Perm.swap r x xs)

theorem sortByFilingDateDesc_perm (l : List TransactionRecord) :
    (sortByFilingDateDesc l).Perm l := by
  induction l with
  | nil => exact List.Perm.refl _
  | cons x xs ih =>
    exact (insertByDate_perm x (sortByFilingDateDesc xs)).trans (ih.cons x)

theorem insertByDate_sorted (r : TransactionRecord) (l : List TransactionRecord)
    (hl : l.Pairwise (fun a b => filingLe a b = true)) :
    (insertByDate r l).Pairwise (fun a b => filingLe a b = true) := by
  induction l with
  | nil => simp [insertByDate]
  | cons x xs ih =>
    rw [List.pairwise_cons] at hl
    obtain ⟨hx, hxs⟩ := hl
    unfold insertByDate
    by_cases h : filingLe r x = true
    · rw [if_pos h, List.pairwise_cons]
      refine ⟨?_, List.Pairwise.cons hx hxs⟩
      intro y hy
      rcases List.mem_cons.mp hy with rfl | hy'
      · exact h
      · exact filingLe_trans r x y h (hx y hy')
    · rw [if_neg h, List.pairwise_cons]
      refine ⟨?_, ih hxs⟩
      intro y hy
      have := (insertByDate_perm r xs).mem_iff.mp hy
      rcases List.mem_cons.mp this with h' | hy'
      · rw [h']
        exact filingLe_of_not r x h
      · exact hx y hy'

/-- The result of the shared sort step is non-increasing in parsed filing
date. -/
theorem sorted_sortByFilingDateDesc (l : List TransactionRecord) :
    (sortByFilingDateDesc l).Pairwise
      (fun a b => dateVal b.filingDate ≤ dateVal a.filingDate) := by
  have h : (sortByFilingDateDesc l).Pairwise (fun a b => filingLe a b = true) := by
    induction l with
    | nil => exact List.Pairwise.nil
    | cons x xs ih => exact insertByDate_sorted x (sortByFilingDateDesc xs) ih
  exact h.imp (by simp [filingLe])

/-- The transform's output is a permutation of the deduplicated stage. -/
theorem transform_perm (d : Option (List RawTransaction)) :
    (transformFinnhubData d).Perm (uniqueTransactions (transformedOf d)) :=
  sortByFilingDateDesc_perm _

theorem mem_transform_iff (d : Option (List RawTransaction)) (r : TransactionRecord) :
    r ∈ transformFinnhubData d ↔
      (transformedOf d).find? (fun t => sameKey t r) = some r := by
  rw [(transform_perm d).mem_iff, mem_uniqueTransactions_iff]

theorem pairwise_transform (d : Option (List RawTransaction)) :
    (transformFinnhubData d).Pairwise (fun a b => sameKey a b = false) := by
  refine (pairwise_uniqueTransactions (transformedOf d)).perm
    (transform_perm d).symm ?_
  intro x y h
  rwa [sameKey_comm]

theorem symbolFetch_eq_ok (env : String → FetchResult) (s : String) :
    symbolFetch env s = .ok (symbolResult env s) := by
  unfold symbolFetch symbolResult
  cases env s <;> rfl

theorem promiseAll_map_symbolFetch (env : String → FetchResult) :
    ∀ syms : List String,
      promiseAll (syms.map (symbolFetch env)) = .ok (syms.map (symbolResult env)) := by
  intro syms
  induction syms with
  | nil => rfl
  | cons s ss ih =>
    rw [List.map_cons, List.map_cons]
    unfold promiseAll
    rw [symbolFetch_eq_ok, ih]

theorem fetchAllTransactions_eq (env : String → FetchResult) :
    fetchAllTransactions env = .ok (combineResults (MAJOR_SYMBOLS.map (symbolResult env))) := by
  unfold fetchAllTransactions
  rw [promiseAll_map_symbolFetch]

theorem flatten_symbolResult_eq_filterMap (env : String → FetchResult) :
    ∀ syms : List String,
      (syms.map (symbolResult env)).flatten =
        (syms.filterMap (fun s => (env s).toOption.map transformFinnhubData)).flatten := by
  intro syms
  induction syms with
  | nil => rfl
  | cons s ss ih =>
    rw [List.map_cons, List.flatten_cons, ih, List.filterMap_cons]
    cases h : env s with
    | ok body =>
      unfold symbolResult
      rw [h]
      simp [Except.toOption]
    | error e =>
      unfold symbolResult
      rw [h]
      simp [Except.toOption]

theorem mapGet_mapDelete {α : Type} (c : CacheMap α) (k : String) :
    mapGet (mapDelete c k) k = none := by
  unfold mapGet mapDelete
  cases h : List.find? (fun p => p.1 == k) (c.filter fun p => p.1 != k) with
  | none => rfl
  | some p =>
    have hp := List.find?_some h
    have hm := List.mem_of_find?_eq_some h
    rw [List.mem_filter] at hm
    simp only [bne_iff_ne, ne_eq, decide_eq_true_eq] at hm
    rw [beq_iff_eq] at hp
    exact absurd hp hm.2

theorem jsAbsD_pos (a : Option Int) (h : intTruthy a = true) : 0 < jsAbsD a := by
  cases a with
  | none => simp [intTruthy] at h
  | some n =>
    simp only [intTruthy, decide_eq_true_eq] at h
    simpa [jsAbsD] using abs_pos.mpr h

theorem getD_jsOrStr_ne_empty (a b : Option String)
    (h : (strTruthy a || strTruthy b) = true) : (jsOrStr a b).getD "" ≠ "" := by
  unfold jsOrStr
  by_cases ha : strTruthy a = true
  · rw [if_pos ha]
    cases a with
    | none => simp [strTruthy] at ha
    | some s => simpa [strTruthy] using ha
  · rw [if_neg ha]
    have hb : strTruthy b = true := by
      rcases (Bool.or_eq_true _ _).mp h with h' | h'
      · exact absurd h' ha
      · exact h'
    cases b with
    | none => simp [strTruthy] at hb
    | some s => simpa [strTruthy] using hb

/-! ## The claims -/

/-- C1: every list `fetchAllTransactions` returns is non-increasing in
parsed filing date across its full length; merging per-symbol lists whose
records are filed 2025-01-01 and 2025-01-05 puts the 2025-01-05 record
first. -/
theorem fetchAll_sorted_desc :
    (∀ (env : String → FetchResult) (l : List TransactionRecord),
        fetchAllTransactions env = .ok l →
          l.Pairwise (fun a b => dateVal b.filingDate ≤ dateVal a.filingDate)) ∧
      combineResults [[toRecord eAAPL], [toRecord eMSFT]] =
        [toRecord eMSFT, toRecord eAAPL] := by
  constructor
  · intro env l h
    rw [fetchAllTransactions_eq] at h
    simp only [Except.ok.injEq] at h
    subst h
    exact sorted_sortByFilingDateDesc _
  · decide

/-- C2, corrected by `transform_price_variant_dropped`: a record is in the
output of `transformFinnhubData` exactly when it is the first record of its
(symbol, filingDate, personName, share) class among the entries the filter
retains (symbol present, share present and non-zero, a date present), each
mapped to a `TransactionRecord` with the stated defaults by `toRecord`. -/
theorem transform_membership_characterisation :
    transformFinnhubData none = [] ∧
      ∀ (data : List RawTransaction) (r : TransactionRecord),
        r ∈ transformFinnhubData (some data) ↔
          ((data.filter keeps).map toRecord).find? (fun t => sameKey t r) = some r := by
  exact ⟨rfl, fun data r => mem_transform_iff (some data) r⟩

/-- C2 fails as stated: `dupB` lacks none of symbol, share and date, yet no
record with its field values (transactionPrice 20) is produced, because the
dedup stage also drops later entries that repeat an earlier retained
entry's (symbol, filingDate, personName, share) key. -/
theorem transform_price_variant_dropped :
    keeps dupB = true ∧ toRecord dupB ∉ transformFinnhubData (some [dupA, dupB]) := by
  decide

/-- C3: no two records of the transform's output share a
(symbol, filingDate, personName, share) key, and every output record is the
first-encountered record of its key in processing order — a later duplicate
never appears. -/
theorem transform_first_wins (d : Option (List RawTransaction)) :
    (transformFinnhubData d).Pairwise (fun a b => sameKey a b = false) ∧
      ∀ r ∈ transformFinnhubData d,
        (transformedOf d).find? (fun t => sameKey t r) = some r :=
  ⟨pairwise_transform d, fun r hr => (mem_transform_iff d r).mp hr⟩

/-- C4: whatever subset of the tracked symbols fails upstream,
`fetchAllTransactions` returns normally, and its value is the merge of the
surviving symbols' transformed payloads alone — a failed symbol contributes
nothing. -/
theorem fetchAll_tolerates_failures (env : String → FetchResult) :
    fetchAllTransactions env =
      .ok (combineResults
        (MAJOR_SYMBOLS.filterMap (fun s => (env s).toOption.map transformFinnhubData))) := by
  rw [fetchAllTransactions_eq]
  unfold combineResults
  rw [flatten_symbolResult_eq_filterMap]

/-- C5: with caching enabled, a value stored at time `T` is returned by a
read at `T + TTL - 1`; a read at `T + TTL + 1` returns nothing and deletes
the expired entry. -/
theorem cache_ttl_boundaries {α : Type} (cfg : CacheConfig) (cache : CacheMap α)
    (key : String) (v : α) (T : Nat)
    (hc : cfg.enableCaching = true) (ht : 1 ≤ cfg.cacheTTL) :
    (getCache cfg (setCache cfg cache T key v) (T + cfg.cacheTTL - 1) key).1 = some v ∧
      (getCache cfg (setCache cfg cache T key v) (T + cfg.cacheTTL + 1) key).1 = none ∧
      mapGet (getCache cfg (setCache cfg cache T key v) (T + cfg.cacheTTL + 1) key).2
        key = none := by
  have hset : setCache cfg cache T key v = mapSet cache key ⟨v, T⟩ := by
    simp [setCache, hc]
  have hmg : mapGet (mapSet cache key (⟨v, T⟩ : CacheEntry α)) key = some ⟨v, T⟩ := by
    simp [mapGet, mapSet]
  have h1 : ¬ cfg.cacheTTL < (T + cfg.cacheTTL - 1) - T := by omega
  have h2 : cfg.cacheTTL < (T + cfg.cacheTTL + 1) - T := by omega
  rw [hset]
  refine ⟨?_, ?_, ?_⟩
  · simp [getCache, hc, hmg, h1]
  · simp [getCache, hc, hmg, h2]
  · simp [getCache, hc, hmg, h2, mapGet_mapDelete]

/-- C5 at a concrete input: the 300000 ms default TTL, a store at 1000. -/
theorem cache_ttl_boundaries_witness :
    (getCache ⟨true, 300000⟩
      (setCache ⟨true, 300000⟩ ([] : CacheMap Nat) 1000 "all_2025-01-01_2025-01-31" 42)
      (1000 + 300000 - 1) "all_2025-01-01_2025-01-31").1 = some 42 ∧
      (getCache ⟨true, 300000⟩
        (setCache ⟨true, 300000⟩ ([] : CacheMap Nat) 1000 "all_2025-01-01_2025-01-31" 42)
        (1000 + 300000 + 1) "all_2025-01-01_2025-01-31").1 = none ∧
      mapGet (getCache ⟨true, 300000⟩
        (setCache ⟨true, 300000⟩ ([] : CacheMap Nat) 1000 "all_2025-01-01_2025-01-31" 42)
        (1000 + 300000 + 1) "all_2025-01-01_2025-01-31").2 "all_2025-01-01_2025-01-31" = none :=
  cache_ttl_boundaries ⟨true, 300000⟩ [] "all_2025-01-01_2025-01-31" 42 1000 rfl (by decide)

/-- C6, corrected by `merged_duplicate_key_slips_through`: when every
record a symbol's query contributes carries that queried symbol — all the
per-symbol deduplication is built for — the merged output of
`fetchAllTransactions` holds no two records with one
(symbol, filingDate, personName, share) key. -/
theorem merged_nodup_key_of_symbol_consistent
    (env : String → FetchResult) (l : List TransactionRecord)
    (hsym : ∀ s ∈ MAJOR_SYMBOLS, ∀ r ∈ symbolResult env s, r.symbol = s)
    (hl : fetchAllTransactions env = .ok l) :
    l.Pairwise (fun a b => sameKey a b = false) := by
  rw [fetchAllTransactions_eq] at hl
  simp only [Except.ok.injEq] at hl
  subst hl
  have hflat : ((MAJOR_SYMBOLS.map (symbolResult env)).flatten).Pairwise
      (fun a b => sameKey a b = false) := by
    rw [List.pairwise_flatten]
    constructor
    · intro l' hl'
      rw [List.mem_map] at hl'
      obtain ⟨s, -, rfl⟩ := hl'
      unfold symbolResult
      cases env s with
      | ok body => exact pairwise_transform body
      | error e => exact List.Pairwise.nil
    · rw [List.pairwise_map]
      have hnd : MAJOR_SYMBOLS.Pairwise (fun a b => a ≠ b) := by decide
      refine hnd.imp_of_mem ?_
      intro s s' hs hs' hne x hx y hy
      rw [Bool.eq_false_iff]
      intro hkey
      have hxs := hsym s hs x hx
      have hys := hsym s' hs' y hy
      exact hne (hxs ▸ hys ▸ ((sameKey_true_iff x y).mp hkey).1)
  unfold combineResults
  exact hflat.perm (sortByFilingDateDesc_perm _).symm
    (fun h => by rw [sameKey_comm]; exact h)

/-- C6 amended, applied to the upstream where AAPL and MSFT answer with a
record of their own symbol and every other request fails. -/
theorem merged_nodup_key_witness :
    List.Pairwise (fun a b => sameKey a b = false) [toRecord eMSFT, toRecord eAAPL] :=
  merged_nodup_key_of_symbol_consistent envEx [toRecord eMSFT, toRecord eAAPL]
    (by decide) (by decide)

/-- C6 fails as stated: nothing stops an upstream payload from answering
another symbol's query with the same entry, and then one key reaches the
merged output twice — deduplication ran only per symbol, and no global
dedup follows the concatenation. -/
theorem merged_duplicate_key_slips_through :
    fetchAllTransactions envDup = .ok [toRecord eAAPL, toRecord eAAPL] ∧
      ¬ List.Pairwise (fun a b => sameKey a b = false)
        [toRecord eAAPL, toRecord eAAPL] :=
  ⟨by decide, by decide⟩

/-- C7's failing input evaluated: when every upstream request rejects with
HTTP 401 (an invalid API token), the route replies success with an empty
list — the per-symbol catch absorbs the auth failure before
`handleFinnhubError` could see it — even though `handleFinnhubError` is
built to turn a 401 into the 500 "Invalid API key configuration" reply,
and the serverless copy answers a missing key with a configuration error
before fetching anything. -/
theorem auth_failure_absorbed_not_surfaced :
    insiderTradesRoute (fun _ => .error err401) = .ok [] ∧
      handleFinnhubError err401 =
        { error := "Invalid API key configuration", details := none, statusCode := 500 } ∧
      vercelInsiderTrades false (fun _ => .error err401) =
        .err { error := "Server configuration error. API key not found.",
               details := none, statusCode := 500 } :=
  ⟨by decide, by decide, by decide⟩

/-- C8: with caching disabled, `setCache` is a no-op and a `getCache`
straight after it returns nothing and changes nothing. -/
theorem cache_disabled_set_get {α : Type} (cfg : CacheConfig) (cache : CacheMap α)
    (now now2 : Nat) (key : String) (v : α) (hc : cfg.enableCaching = false) :
    setCache cfg cache now key v = cache ∧
      getCache cfg (setCache cfg cache now key v) now2 key = (none, cache) := by
  have hs : setCache cfg cache now key v = cache := by simp [setCache, hc]
  refine ⟨hs, ?_⟩
  rw [hs]
  simp [getCache, hc]

/-- C8 at a concrete input. -/
theorem cache_disabled_witness :
    setCache ⟨false, 300000⟩ ([] : CacheMap Nat) 7 "all_2025-01-01_2025-01-31" 9 = [] ∧
      getCache ⟨false, 300000⟩
        (setCache ⟨false, 300000⟩ ([] : CacheMap Nat) 7 "all_2025-01-01_2025-01-31" 9)
        8 "all_2025-01-01_2025-01-31" = (none, []) :=
  cache_disabled_set_get ⟨false, 300000⟩ [] 7 8 "all_2025-01-01_2025-01-31" 9 rfl

/-- C9: every record `transformFinnhubData` outputs has strictly positive
share and a non-empty filingDate: the filter rejects falsy share values
and demands one of the two dates, and the map falls back to
transactionDate when filingDate is absent. -/
theorem transform_share_pos_filingDate_present (d : Option (List RawTransaction))
    (r : TransactionRecord) (hr : r ∈ transformFinnhubData d) :
    0 < r.share ∧ r.filingDate ≠ "" := by
  have hmem := List.mem_of_find?_eq_some ((mem_transform_iff d r).mp hr)
  cases d with
  | none => simp [transformedOf] at hmem
  | some data =>
    simp only [transformedOf] at hmem
    rw [List.mem_map] at hmem
    obtain ⟨t, ht, rfl⟩ := hmem
    rw [List.mem_filter] at ht
    have hk := ht.2
    simp only [keeps, Bool.and_eq_true] at hk
    obtain ⟨⟨⟨-, hshare⟩, -⟩, hdate⟩ := hk
    exact ⟨jsAbsD_pos t.share hshare,
      getD_jsOrStr_ne_empty t.filingDate t.transactionDate hdate⟩

/-- C9 at a concrete input. -/
theorem transform_share_pos_witness :
    0 < (toRecord eAAPL).share ∧ (toRecord eAAPL).filingDate ≠ "" :=
  transform_share_pos_filingDate_present (some [eAAPL]) (toRecord eAAPL) (by decide)

/-- C10: a `getCache` hit returns the cache map unchanged — the stored
timestamp is never refreshed, so repeated reads cannot extend an entry's
life — and any `getCache` call that changes the map returned nothing and
made exactly the deletion of the key's expired entry. -/
theorem getCache_hit_frame {α : Type} (cfg : CacheConfig) (cache : CacheMap α)
    (now : Nat) (key : String) :
    ((getCache cfg cache now key).1.isSome = true →
        (getCache cfg cache now key).2 = cache) ∧
      ((getCache cfg cache now key).2 ≠ cache →
        (getCache cfg cache now key).1 = none ∧
          (getCache cfg cache now key).2 = mapDelete cache key) := by
  unfold getCache
  cases hcb : cfg.enableCaching with
  | false => simp
  | true =>
    simp only [Bool.not_true, Bool.false_eq_true, if_false]
    cases hmg : mapGet cache key with
    | none => simp
    | some e =>
      by_cases hexp : cfg.cacheTTL < now - e.timestamp
      · simp [hexp]
      · simp [hexp]

end Insider
